import Mathlib

/-!
Verification of the `rifflex` event bus (`src/event_bus.rs`) and the
storage-type helpers (`src/config.rs`).

The event bus is embedded as a small-step transition system.  A state
(`EventBus`) carries the FIFO queue, the semaphore's available permits,
the subscriber registry with its atomic id counter, the single dispatch
loop's control point, the set of spawned dispatch tasks (each holding one
owned permit), the launch log, the delivery log and the metric counters.
Events are identified by their publish sequence number.  The `Step`
relation contains one rule per suspension/atomic section of the Rust
code: publishing, subscribing, channel closure, the loop's dequeue,
permit acquisition, spawn and exit, and a task's first poll (metrics
front matter plus registry snapshot), one handler invocation, the normal
epilogue (timer observe, gauge decrement, handled increment, permit
drop), a handler panic (unwinding drops the timer and the permit) and
cancellation at an await point (the dropped future releases the permit).
-/

namespace Rifflex

/-- Storage tiers from `config.rs`, with their source discriminant values. -/
inductive StorageType where
  | MEMORY
  | LOCALFILE
  | MEMORY_LOCALFILE
  | HDFS
  | MEMORY_HDFS
  | MEMORY_LOCALFILE_HDFS
deriving DecidableEq, Repr

/-- The numeric (u8) discriminant of a `StorageType`, as declared in the enum. -/
def StorageType.code : StorageType → Nat
  | .MEMORY => 1
  | .LOCALFILE => 2
  | .MEMORY_LOCALFILE => 3
  | .HDFS => 4
  | .MEMORY_HDFS => 5
  | .MEMORY_LOCALFILE_HDFS => 7

/-- `StorageType::contains_localfile`: bitwise test `val & (LOCALFILE as u8) != 0`. -/
def StorageType.contains_localfile (storage_type : StorageType) : Bool :=
  Nat.land storage_type.code StorageType.LOCALFILE.code != 0

/-- `StorageType::contains_memory`: bitwise test `val & (MEMORY as u8) != 0`. -/
def StorageType.contains_memory (storage_type : StorageType) : Bool :=
  Nat.land storage_type.code StorageType.MEMORY.code != 0

/-- `StorageType::contains_hdfs`: bitwise test `val & (HDFS as u8) != 0`. -/
def StorageType.contains_hdfs (storage_type : StorageType) : Bool :=
  Nat.land storage_type.code StorageType.HDFS.code != 0

/-- Control point of a spawned dispatch task.  `tinit` is the spawned but
not yet polled future; `iter done rest` is the subscriber loop with the
snapshot split into already-invoked ids (`done`, in order) and remaining
ids (`rest`).  The snapshot taken at first poll is `done ++ rest`. -/
inductive TaskPhase where
  | tinit
  | iter (done rest : List Nat)
deriving DecidableEq, Repr

/-- A live dispatch task: the sequence number of its event plus its phase.
Each live task owns exactly one semaphore permit (moved into the spawned
future together with the `concurrency_guarder`). -/
structure Task where
  seq : Nat
  phase : TaskPhase
deriving DecidableEq, Repr

/-- Snapshot ids of a task (empty before the first poll). -/
def TaskPhase.snapIds : TaskPhase → List Nat
  | .tinit => []
  | .iter done rest => done ++ rest

/-- Ids whose handler invocation has already completed. -/
def TaskPhase.doneIds : TaskPhase → List Nat
  | .tinit => []
  | .iter done _ => done

/-- Control point of the single dispatch loop of `EventBus::handle`:
waiting on `queue_recv.recv()`, holding a dequeued event while awaiting
`acquire_owned`, holding the event and the acquired permit just before
`runtime.spawn`, or exited (channel closed and drained). -/
inductive LoopPhase where
  | lwait
  | lacq (e : Nat)
  | lhold (e : Nat)
  | ldone
deriving DecidableEq, Repr

/-- 1 when the loop itself holds an acquired, not yet transferred permit. -/
def LoopPhase.heldN : LoopPhase → Nat
  | .lhold _ => 1
  | _ => 0

/-- The event dequeued by the loop but not yet handed to a spawned task. -/
def LoopPhase.buf : LoopPhase → List Nat
  | .lacq e => [e]
  | .lhold e => [e]
  | _ => []

/-- State of one `EventBus` instance (`Inner<T>` of `event_bus.rs`) plus
the metric counters labelled with this bus's name.  Events are identified
by publish sequence number; `queue` is the unbounded FIFO channel,
`permits` the semaphore's available permits, `subscribers` the registry
as (id, handler tag) pairs, `keyCounter` the atomic id counter, `tasks`
the live spawned dispatch tasks, `launched` the spawn log in order,
`deliveries` the log of completed handler invocations (event, id),
`closed` whether the channel has been closed. -/
structure EventBus where
  queue : List Nat
  permits : Nat
  subscribers : List (Nat × Nat)
  keyCounter : Nat
  loop : LoopPhase
  tasks : List Task
  launched : List Nat
  pubCount : Nat
  deliveries : List (Nat × Nat)
  closed : Bool
  mPublished : Nat
  mHandled : Nat
  mHcount : Nat
  mPending : Int
  mHandling : Int
deriving DecidableEq, Repr

/-- `EventBus::new(runtime, name, concurrency_limit)`: fresh empty queue,
empty registry, id counter 0, semaphore with `concurrency_limit` permits,
dispatch loop started at its receive point.  No validation of the limit
is performed by the source. -/
def EventBus.new (concurrency_limit : Nat) : EventBus where
  queue := []
  permits := concurrency_limit
  subscribers := []
  keyCounter := 0
  loop := .lwait
  tasks := []
  launched := []
  pubCount := 0
  deliveries := []
  closed := false
  mPublished := 0
  mHandled := 0
  mHcount := 0
  mPending := 0
  mHandling := 0

/-- `EventBus::publish(event)`: `queue_send.send(event).await?` fails only
when the channel is closed, and then returns the error with no metric
update; on success it enqueues and increments the pending gauge and the
published counter.  The returned value models `anyhow::Result<()>`. -/
def EventBus.publish (s : EventBus) : Except Unit Unit × EventBus :=
  match s.closed with
  | true => (Except.error (), s)
  | false =>
    (Except.ok (),
      { s with
        queue := s.queue ++ [s.pubCount]
        pubCount := s.pubCount + 1
        mPending := s.mPending + 1
        mPublished := s.mPublished + 1 })

/-- `EventBus::subscribe(listener)`: `fetch_add(1, SeqCst)` on the key
counter, insert `(idx, listener)` into the registry, return unit (the
Rust method has no return value). -/
def EventBus.subscribe (s : EventBus) (listener : Nat) : Unit × EventBus :=
  ((),
    { s with
      subscribers := s.subscribers ++ [(s.keyCounter, listener)]
      keyCounter := s.keyCounter + 1 })

/-- One atomic step of the bus: each rule is one suspension-free section
of `event_bus.rs`, or an exit path of a spawned task. -/
inductive Step : EventBus → EventBus → Prop where
  /-- A successful `publish` (channel open). -/
  | publishOk (s : EventBus) (h : s.closed = false) :
      Step s { s with
        queue := s.queue ++ [s.pubCount]
        pubCount := s.pubCount + 1
        mPending := s.mPending + 1
        mPublished := s.mPublished + 1 }
  /-- A `subscribe` call: allocate the next id, insert the handler. -/
  | subscriberAdd (s : EventBus) (listener : Nat) :
      Step s { s with
        subscribers := s.subscribers ++ [(s.keyCounter, listener)]
        keyCounter := s.keyCounter + 1 }
  /-- The channel closes (every sender handle dropped). -/
  | closeSend (s : EventBus) :
      Step s { s with closed := true }
  /-- `queue_recv.recv().await` returns the head of the FIFO queue. -/
  | dequeue (s : EventBus) (e : Nat) (q : List Nat)
      (hl : s.loop = .lwait) (hq : s.queue = e :: q) :
      Step s { s with loop := .lacq e, queue := q }
  /-- `recv` fails (closed and drained): the loop exits. -/
  | loopExit (s : EventBus)
      (hl : s.loop = .lwait) (hq : s.queue = []) (hc : s.closed = true) :
      Step s { s with loop := .ldone }
  /-- `acquire_owned().await` obtains a permit from the semaphore. -/
  | acquire (s : EventBus) (e : Nat)
      (hl : s.loop = .lacq e) (hp : 0 < s.permits) :
      Step s { s with loop := .lhold e, permits := s.permits - 1 }
  /-- `runtime.spawn(...)`: the permit moves into the new task's future. -/
  | spawn (s : EventBus) (e : Nat) (hl : s.loop = .lhold e) :
      Step s { s with
        loop := .lwait
        tasks := s.tasks ++ [⟨e, .tinit⟩]
        launched := s.launched ++ [e] }
  /-- First poll of a spawned task: start the timer, increment the
  handling gauge, decrement the pending gauge, snapshot the registry. -/
  | poll (s : EventBus) (ts1 ts2 : List Task) (e : Nat)
      (ht : s.tasks = ts1 ++ ⟨e, .tinit⟩ :: ts2) :
      Step s { s with
        tasks := ts1 ++ ⟨e, .iter [] (s.subscribers.map Prod.fst)⟩ :: ts2
        mHandling := s.mHandling + 1
        mPending := s.mPending - 1 }
  /-- `subscriber.on_event(&message).await` completes for the next id. -/
  | invoke (s : EventBus) (ts1 ts2 : List Task) (e : Nat)
      (d : List Nat) (i : Nat) (r : List Nat)
      (ht : s.tasks = ts1 ++ ⟨e, .iter d (i :: r)⟩ :: ts2) :
      Step s { s with
        tasks := ts1 ++ ⟨e, .iter (d ++ [i]) r⟩ :: ts2
        deliveries := s.deliveries ++ [(e, i)] }
  /-- Normal epilogue after the last handler: `observe_duration`,
  handling gauge decrement, handled counter increment, permit drop. -/
  | finishTask (s : EventBus) (ts1 ts2 : List Task) (e : Nat) (d : List Nat)
      (ht : s.tasks = ts1 ++ ⟨e, .iter d []⟩ :: ts2) :
      Step s { s with
        tasks := ts1 ++ ts2
        permits := s.permits + 1
        mHcount := s.mHcount + 1
        mHandling := s.mHandling - 1
        mHandled := s.mHandled + 1 }
  /-- A handler panics: unwinding drops the timer (which observes) and
  the permit guard; the remaining metric statements are skipped. -/
  | panicTask (s : EventBus) (ts1 ts2 : List Task) (e : Nat)
      (d : List Nat) (i : Nat) (r : List Nat)
      (ht : s.tasks = ts1 ++ ⟨e, .iter d (i :: r)⟩ :: ts2) :
      Step s { s with
        tasks := ts1 ++ ts2
        permits := s.permits + 1
        mHcount := s.mHcount + 1 }
  /-- The task future is dropped before its first poll: only the moved-in
  permit guard is dropped. -/
  | cancelTinit (s : EventBus) (ts1 ts2 : List Task) (e : Nat)
      (ht : s.tasks = ts1 ++ ⟨e, .tinit⟩ :: ts2) :
      Step s { s with
        tasks := ts1 ++ ts2
        permits := s.permits + 1 }
  /-- The task is cancelled while awaiting a handler: the dropped future
  runs the timer's and the guard's destructors. -/
  | cancelIter (s : EventBus) (ts1 ts2 : List Task) (e : Nat)
      (d : List Nat) (i : Nat) (r : List Nat)
      (ht : s.tasks = ts1 ++ ⟨e, .iter d (i :: r)⟩ :: ts2) :
      Step s { s with
        tasks := ts1 ++ ts2
        permits := s.permits + 1
        mHcount := s.mHcount + 1 }

/-- Reflexive-transitive closure of `Step`. -/
inductive RF : EventBus → EventBus → Prop where
  | refl (s : EventBus) : RF s s
  | tail (a b c : EventBus) : RF a b → Step b c → RF a c

/-- Reachability from a freshly constructed bus with the given limit. -/
def Reach (concurrency_limit : Nat) (s : EventBus) : Prop :=
  RF (EventBus.new concurrency_limit) s

/-- Completed handler invocations recorded for event `e`, in order. -/
def evtDeliv (ds : List (Nat × Nat)) (e : Nat) : List Nat :=
  (ds.filter fun p => p.1 == e).map Prod.snd

/-- The inductive invariant of the bus, for a configured limit `k`:
permit conservation (available + one per live task + one if the loop
holds one), the FIFO partition of the publish sequence between the spawn
log, the loop's buffer and the queue, the registry's id layout, snapshot
ids bounded by the id counter, uniqueness and provenance of task
sequence numbers, and the delivery log's agreement with each live task's
progress. -/
structure Inv (k : Nat) (s : EventBus) : Prop where
  conserve : s.permits + s.tasks.length + s.loop.heldN = k
  fifo : s.launched ++ (s.loop.buf ++ s.queue) = List.range s.pubCount
  reg : s.subscribers.map Prod.fst = List.range s.keyCounter
  snapLt : ∀ t ∈ s.tasks, ∀ i ∈ t.phase.snapIds, i < s.keyCounter
  seqNodup : (s.tasks.map Task.seq).Nodup
  seqLaunched : ∀ t ∈ s.tasks, t.seq ∈ s.launched
  delivLaunched : ∀ p ∈ s.deliveries, p.1 ∈ s.launched
  delivDone : ∀ t ∈ s.tasks, evtDeliv s.deliveries t.seq = t.phase.doneIds

/-- Once a dispatch task for event `e` has taken its snapshot `S`, that
snapshot is frozen: the (unique) task for `e` stays in `iter` phases over
`S`, `e` can never be enqueued, dequeued or spawned again, and every
delivery recorded for `e` names an id of `S`. -/
structure Frozen (e : Nat) (S : List Nat) (s : EventBus) : Prop where
  task : ∀ t ∈ s.tasks, t.seq = e → ∃ d r, t.phase = .iter d r ∧ d ++ r = S
  nbuf : e ∉ s.loop.buf
  nqueue : e ∉ s.queue
  lt : e < s.pubCount
  deliv : ∀ p ∈ s.deliveries, p.1 = e → p.2 ∈ S

/-- `n` successive successful publishes on a fresh bus with limit `k`. -/
def pubIter (k : Nat) : Nat → EventBus
  | 0 => EventBus.new k
  | n + 1 => ((pubIter k n).publish).2

/-- Demo execution A, step 1: one publish on a fresh bus with limit 1. -/
def demoA1 : EventBus :=
  { EventBus.new 1 with queue := [0], pubCount := 1, mPending := 1, mPublished := 1 }

/-- Demo A, step 2: the loop dequeues event 0. -/
def demoA2 : EventBus := { demoA1 with loop := .lacq 0, queue := [] }

/-- Demo A, step 3: the loop acquires the only permit. -/
def demoA3 : EventBus := { demoA2 with loop := .lhold 0, permits := 0 }

/-- Demo A, step 4: a dispatch task for event 0 is spawned. -/
def demoA4 : EventBus :=
  { demoA3 with loop := .lwait, tasks := [⟨0, .tinit⟩], launched := [0] }

/-- Demo A, step 5: the task polls with an empty registry snapshot. -/
def demoA5 : EventBus :=
  { demoA4 with tasks := [⟨0, .iter [] []⟩], mHandling := 1, mPending := 0 }

/-- Demo A, step 6: the task finishes its metrics bracket with no
subscribers ever registered. -/
def demoA6 : EventBus :=
  { demoA5 with tasks := [], permits := 1, mHcount := 1, mHandling := 0,
                mHandled := 1 }

/-- Demo execution B, branching from `demoA4`: a subscriber registers
after event 0 was published, dequeued and even spawned. -/
def demoB5 : EventBus := { demoA4 with subscribers := [(0, 9)], keyCounter := 1 }

/-- Demo B: the task polls; its snapshot contains the late subscriber. -/
def demoB6 : EventBus :=
  { demoB5 with tasks := [⟨0, .iter [] [0]⟩], mHandling := 1, mPending := 0 }

/-- Demo B: subscriber 0's handler runs for event 0. -/
def demoB7 : EventBus :=
  { demoB6 with tasks := [⟨0, .iter [0] []⟩], deliveries := [(0, 0)] }

/-- Demo execution C: two publishes then two dispatch launches, limit 2. -/
def demoC1 : EventBus :=
  { EventBus.new 2 with queue := [0], pubCount := 1, mPending := 1, mPublished := 1 }

/-- Demo C: second publish. -/
def demoC2 : EventBus :=
  { demoC1 with queue := [0, 1], pubCount := 2, mPending := 2, mPublished := 2 }

/-- Demo C: dequeue event 0. -/
def demoC3 : EventBus := { demoC2 with loop := .lacq 0, queue := [1] }

/-- Demo C: acquire a permit for event 0. -/
def demoC4 : EventBus := { demoC3 with loop := .lhold 0, permits := 1 }

/-- Demo C: spawn the task for event 0. -/
def demoC5 : EventBus :=
  { demoC4 with loop := .lwait, tasks := [⟨0, .tinit⟩], launched := [0] }

/-- Demo C: dequeue event 1. -/
def demoC6 : EventBus := { demoC5 with loop := .lacq 1, queue := [] }

/-- Demo C: acquire a permit for event 1. -/
def demoC7 : EventBus := { demoC6 with loop := .lhold 1, permits := 0 }

/-- Demo C: spawn the task for event 1; launch order is [0, 1]. -/
def demoC8 : EventBus :=
  { demoC7 with loop := .lwait, tasks := [⟨0, .tinit⟩, ⟨1, .tinit⟩],
                launched := [0, 1] }

lemma mem_mid {u t : Task} {ts1 ts2 : List Task} (h : u ∈ ts1 ++ t :: ts2) :
    u = t ∨ u ∈ ts1 ++ ts2 := by
  simp only [List.mem_append, List.mem_cons] at h ⊢
  tauto

lemma mem_unmid {u t : Task} {ts1 ts2 : List Task} (h : u ∈ ts1 ++ ts2) :
    u ∈ ts1 ++ t :: ts2 := by
  simp only [List.mem_append, List.mem_cons] at h ⊢
  tauto

lemma mid_mem {t : Task} (ts1 ts2 : List Task) : t ∈ ts1 ++ t :: ts2 := by
  simp

lemma seq_ne_mid {u t : Task} {ts1 ts2 : List Task}
    (nd : ((ts1 ++ t :: ts2).map Task.seq).Nodup) (hu : u ∈ ts1 ++ ts2) :
    u.seq ≠ t.seq := by
  intro he
  rcases List.mem_append.mp hu with h1 | h2
  · have := (List.nodup_append.mp (by simpa using nd)).2.2
    exact this (List.mem_map_of_mem Task.seq h1) (by simp [he])
  · have := (List.nodup_append.mp (by simpa using nd)).2.1
    rw [List.nodup_cons] at this
    exact this.1 (he ▸ List.mem_map_of_mem Task.seq h2)

lemma seq_map_mid (ts1 ts2 : List Task) (e : Nat) (p q : TaskPhase) :
    (ts1 ++ ⟨e, p⟩ :: ts2).map Task.seq = (ts1 ++ ⟨e, q⟩ :: ts2).map Task.seq := by
  simp

lemma evtDeliv_append (ds : List (Nat × Nat)) (a b e : Nat) :
    evtDeliv (ds ++ [(a, b)]) e
      = evtDeliv ds e ++ (if a = e then [b] else []) := by
  by_cases h : a = e <;> simp [evtDeliv, List.filter_append, h]

lemma evtDeliv_of_not_mem {ds : List (Nat × Nat)} {L : List Nat} {e : Nat}
    (h : ∀ p ∈ ds, p.1 ∈ L) (he : e ∉ L) : evtDeliv ds e = [] := by
  rw [evtDeliv, List.map_eq_nil_iff, List.filter_eq_nil_iff]
  intro p hp
  simp only [beq_iff_eq]
  intro hpe
  exact he (hpe ▸ h p hp)

lemma mem_evtDeliv {ds : List (Nat × Nat)} {e : Nat} {p : Nat × Nat}
    (hp : p ∈ ds) (he : p.1 = e) : p.2 ∈ evtDeliv ds e := by
  rw [evtDeliv]
  exact List.mem_map_of_mem Prod.snd (List.mem_filter.mpr ⟨hp, by simp [he]⟩)

lemma nodup_of_eq_range {l : List Nat} {n : Nat} (h : l = List.range n) :
    l.Nodup := h ▸ List.nodup_range n

lemma lt_of_mem_left {l1 l2 : List Nat} {e n : Nat}
    (h : l1 ++ l2 = List.range n) (he : e ∈ l1) : e < n := by
  have hm := List.mem_append_left l2 he
  rw [h, List.mem_range] at hm
  exact hm

lemma disjoint_of_eq_range {l1 l2 : List Nat} {n : Nat}
    (h : l1 ++ l2 = List.range n) : ∀ a ∈ l1, a ∉ l2 := by
  have hn : (l1 ++ l2).Nodup := nodup_of_eq_range h
  rw [List.nodup_append] at hn
  exact fun a ha hb => hn.2.2 ha hb

lemma nodup_replace {ts1 ts2 : List Task} {e : Nat} {p q : TaskPhase}
    (nd : ((ts1 ++ ⟨e, p⟩ :: ts2).map Task.seq).Nodup) :
    ((ts1 ++ ⟨e, q⟩ :: ts2).map Task.seq).Nodup := by
  rw [seq_map_mid ts1 ts2 e q p]
  exact nd

lemma nodup_remove {ts1 ts2 : List Task} {t : Task}
    (nd : ((ts1 ++ t :: ts2).map Task.seq).Nodup) :
    ((ts1 ++ ts2).map Task.seq).Nodup :=
  List.Nodup.sublist (List.Sublist.map Task.seq
    (List.Sublist.append_left (List.sublist_cons_self t ts2) ts1)) nd

/-- Every step of the bus preserves the inductive invariant. -/
theorem step_inv {k : Nat} {s s' : EventBus} (hs : Step s s') (hInv : Inv k s) :
    Inv k s' := by
  obtain ⟨c, fifo, reg, snap, nd, seqL, dl, dd⟩ := hInv
  cases hs with
  | publishOk h =>
      refine ⟨c, ?_, reg, snap, nd, seqL, dl, dd⟩
      rw [List.range_succ, ← fifo]
      simp
  | subscriberAdd listener =>
      refine ⟨c, fifo, ?_, ?_, nd, seqL, dl, dd⟩
      · simp [List.range_succ, reg]
      · exact fun t ht i hi => Nat.lt_succ_of_lt (snap t ht i hi)
  | closeSend =>
      exact ⟨c, fifo, reg, snap, nd, seqL, dl, dd⟩
  | dequeue e q hl hq =>
      rw [hl] at c fifo
      rw [hq] at fifo
      refine ⟨?_, ?_, reg, snap, nd, seqL, dl, dd⟩
      · simpa [LoopPhase.heldN] using c
      · simpa [LoopPhase.buf] using fifo
  | loopExit hl hq hc =>
      rw [hl] at c fifo
      refine ⟨?_, ?_, reg, snap, nd, seqL, dl, dd⟩
      · simpa [LoopPhase.heldN] using c
      · simpa [LoopPhase.buf] using fifo
  | acquire e hl hp =>
      rw [hl] at c fifo
      refine ⟨?_, ?_, reg, snap, nd, seqL, dl, dd⟩
      · simp only [LoopPhase.heldN] at c ⊢
        omega
      · simpa [LoopPhase.buf] using fifo
  | spawn e hl =>
      rw [hl] at c fifo
      simp only [LoopPhase.buf] at fifo
      have henl : e ∉ s.launched := by
        intro he
        exact disjoint_of_eq_range fifo e he (by simp)
      refine ⟨?_, ?_, reg, ?_, ?_, ?_, ?_, ?_⟩
      · simp only [LoopPhase.heldN, List.length_append, List.length_cons,
          List.length_nil] at c ⊢
        omega
      · rw [← fifo]
        simp [LoopPhase.buf]
      · intro t ht i hi
        rcases List.mem_append.mp ht with h1 | h2
        · exact snap t h1 i hi
        · have : t = ⟨e, .tinit⟩ := by simpa using h2
          rw [this] at hi
          simp [TaskPhase.snapIds] at hi
      · rw [List.map_append]
        refine List.Nodup.append nd (by simp) ?_
        intro a ha hb
        simp only [List.map_cons, List.map_nil, List.mem_singleton] at hb
        rcases List.mem_map.mp ha with ⟨t, ht, rfl⟩
        exact henl (hb ▸ seqL t ht)
      · intro t ht
        rcases List.mem_append.mp ht with h1 | h2
        · exact List.mem_append_left _ (seqL t h1)
        · have : t = ⟨e, .tinit⟩ := by simpa using h2
          rw [this]
          simp
      · exact fun p hp => List.mem_append_left _ (dl p hp)
      · intro t ht
        rcases List.mem_append.mp ht with h1 | h2
        · exact dd t h1
        · have : t = ⟨e, .tinit⟩ := by simpa using h2
          rw [this, TaskPhase.doneIds]
          exact evtDeliv_of_not_mem dl henl
  | poll ts1 ts2 e ht =>
      rw [ht] at c snap nd seqL dd
      refine ⟨?_, fifo, reg, ?_, ?_, ?_, dl, ?_⟩
      · simpa using c
      · intro t htm i hi
        rcases mem_mid htm with rfl | h2
        · simp only [TaskPhase.snapIds, List.nil_append] at hi
          rw [reg] at hi
          exact List.mem_range.mp hi
        · exact snap t (mem_unmid h2) i hi
      · exact nodup_replace nd
      · intro t htm
        rcases mem_mid htm with rfl | h2
        · exact seqL ⟨e, .tinit⟩ (mid_mem ts1 ts2)
        · exact seqL t (mem_unmid h2)
      · intro t htm
        rcases mem_mid htm with rfl | h2
        · have := dd ⟨e, .tinit⟩ (mid_mem ts1 ts2)
          simpa [TaskPhase.doneIds] using this
        · exact dd t (mem_unmid h2)
  | invoke ts1 ts2 e d i r ht =>
      rw [ht] at c snap nd seqL dd
      refine ⟨?_, fifo, reg, ?_, ?_, ?_, ?_, ?_⟩
      · simpa using c
      · intro t htm j hj
        rcases mem_mid htm with rfl | h2
        · refine snap ⟨e, .iter d (i :: r)⟩ (mid_mem ts1 ts2) j ?_
          simp only [TaskPhase.snapIds] at hj ⊢
          simp at hj ⊢
          tauto
        · exact snap t (mem_unmid h2) j hj
      · exact nodup_replace nd
      · intro t htm
        rcases mem_mid htm with rfl | h2
        · exact seqL ⟨e, .iter d (i :: r)⟩ (mid_mem ts1 ts2)
        · exact seqL t (mem_unmid h2)
      · intro p hp
        rcases List.mem_append.mp hp with h1 | h2
        · exact dl p h1
        · have : p = (e, i) := by simpa using h2
          rw [this]
          exact seqL ⟨e, .iter d (i :: r)⟩ (mid_mem ts1 ts2)
      · intro t htm
        rcases mem_mid htm with rfl | h2
        · rw [evtDeliv_append]
          have := dd ⟨e, .iter d (i :: r)⟩ (mid_mem ts1 ts2)
          simp only [TaskPhase.doneIds] at this ⊢
          simp [this]
        · rw [evtDeliv_append]
          have hne : t.seq ≠ e := seq_ne_mid nd h2
          have := dd t (mem_unmid h2)
          simp [hne.symm, this]
  | finishTask ts1 ts2 e d ht =>
      rw [ht] at c snap nd seqL dd
      refine ⟨?_, fifo, reg, ?_, ?_, ?_, dl, ?_⟩
      · simp only [List.length_append, List.length_cons] at c ⊢
        omega
      · exact fun t htm j hj => snap t (mem_unmid htm) j hj
      · exact nodup_remove nd
      · exact fun t htm => seqL t (mem_unmid htm)
      · exact fun t htm => dd t (mem_unmid htm)
  | panicTask ts1 ts2 e d i r ht =>
      rw [ht] at c snap nd seqL dd
      refine ⟨?_, fifo, reg, ?_, ?_, ?_, dl, ?_⟩
      · simp only [List.length_append, List.length_cons] at c ⊢
        omega
      · exact fun t htm j hj => snap t (mem_unmid htm) j hj
      · exact nodup_remove nd
      · exact fun t htm => seqL t (mem_unmid htm)
      · exact fun t htm => dd t (mem_unmid htm)
  | cancelTinit ts1 ts2 e ht =>
      rw [ht] at c snap nd seqL dd
      refine ⟨?_, fifo, reg, ?_, ?_, ?_, dl, ?_⟩
      · simp only [List.length_append, List.length_cons] at c ⊢
        omega
      · exact fun t htm j hj => snap t (mem_unmid htm) j hj
      · exact nodup_remove nd
      · exact fun t htm => seqL t (mem_unmid htm)
      · exact fun t htm => dd t (mem_unmid htm)
  | cancelIter ts1 ts2 e d i r ht =>
      rw [ht] at c snap nd seqL dd
      refine ⟨?_, fifo, reg, ?_, ?_, ?_, dl, ?_⟩
      · simp only [List.length_append, List.length_cons] at c ⊢
        omega
      · exact fun t htm j hj => snap t (mem_unmid htm) j hj
      · exact nodup_remove nd
      · exact fun t htm => seqL t (mem_unmid htm)
      · exact fun t htm => dd t (mem_unmid htm)

/-- The invariant holds for a freshly constructed bus. -/
theorem inv_new (k : Nat) : Inv k (EventBus.new k) := by
  refine ⟨?_, ?_, ?_, ?_, ?_, ?_, ?_, ?_⟩ <;>
    simp [EventBus.new, LoopPhase.heldN, LoopPhase.buf]

/-- The invariant holds in every reachable state. -/
theorem rf_inv {k : Nat} {s : EventBus} (h : RF (EventBus.new k) s) : Inv k s := by
  induction h with
  | refl => exact inv_new k
  | tail b c _ hbc ih => exact step_inv hbc ih

/-- The invariant holds in every reachable state (via `Reach`). -/
theorem reach_inv {k : Nat} {s : EventBus} (h : Reach k s) : Inv k s :=
  rf_inv h

/-- A frozen snapshot stays frozen across any single step. -/
theorem frozen_step {e : Nat} {S : List Nat} {s s' : EventBus}
    (hf : Frozen e S s) (hs : Step s s') : Frozen e S s' := by
  cases hs with
  | publishOk h =>
      refine ⟨hf.task, hf.nbuf, ?_, ?_, hf.deliv⟩
      · intro hm
        rcases List.mem_append.mp hm with h1 | h2
        · exact hf.nqueue h1
        · have := hf.lt
          simp at h2
          omega
      · exact Nat.lt_succ_of_lt hf.lt
  | subscriberAdd listener =>
      exact ⟨hf.task, hf.nbuf, hf.nqueue, hf.lt, hf.deliv⟩
  | closeSend =>
      exact ⟨hf.task, hf.nbuf, hf.nqueue, hf.lt, hf.deliv⟩
  | dequeue e0 q hl hq =>
      refine ⟨hf.task, ?_, ?_, hf.lt, hf.deliv⟩
      · intro hm
        simp only [LoopPhase.buf, List.mem_singleton] at hm
        subst hm
        exact (hq ▸ hf.nqueue) (List.mem_cons_self _ _)
      · intro hm
        exact (hq ▸ hf.nqueue) (List.mem_cons.mpr (Or.inr hm))
  | loopExit hl hq hc =>
      exact ⟨hf.task, by simp [LoopPhase.buf], hf.nqueue, hf.lt, hf.deliv⟩
  | acquire e0 hl hp =>
      refine ⟨hf.task, ?_, hf.nqueue, hf.lt, hf.deliv⟩
      have := hf.nbuf
      rw [hl] at this
      simpa [LoopPhase.buf] using this
  | spawn e0 hl =>
      have hne : e ≠ e0 := by
        have := hf.nbuf
        rw [hl] at this
        simpa [LoopPhase.buf] using this
      refine ⟨?_, by simp [LoopPhase.buf], hf.nqueue, hf.lt, hf.deliv⟩
      intro t hm hseq
      rcases List.mem_append.mp hm with h1 | h2
      · exact hf.task t h1 hseq
      · have hte : t = ⟨e0, .tinit⟩ := by simpa using h2
        rw [hte] at hseq
        exact absurd hseq.symm hne
  | poll ts1 ts2 e0 ht =>
      by_cases he : e0 = e
      · subst he
        exfalso
        obtain ⟨d, r, hph, _⟩ :=
          hf.task ⟨e0, .tinit⟩ (by rw [ht]; exact mid_mem ts1 ts2) rfl
        simp at hph
      · refine ⟨?_, hf.nbuf, hf.nqueue, hf.lt, hf.deliv⟩
        intro t hm hseq
        rcases mem_mid hm with rfl | h2
        · exact absurd hseq he
        · exact hf.task t (by rw [ht]; exact mem_unmid h2) hseq
  | invoke ts1 ts2 e0 d i r ht =>
      refine ⟨?_, hf.nbuf, hf.nqueue, hf.lt, ?_⟩
      · intro t hm hseq
        rcases mem_mid hm with rfl | h2
        · obtain ⟨d', r', hph, hS⟩ :=
            hf.task ⟨e0, .iter d (i :: r)⟩ (by rw [ht]; exact mid_mem ts1 ts2) hseq
          injection hph with h1 h2
          subst h1
          subst h2
          refine ⟨d ++ [i], r, rfl, ?_⟩
          rw [← hS]
          simp
        · exact hf.task t (by rw [ht]; exact mem_unmid h2) hseq
      · intro p hp hpe
        rcases List.mem_append.mp hp with h1 | h2
        · exact hf.deliv p h1 hpe
        · have hpei : p = (e0, i) := by simpa using h2
          subst hpei
          simp only at hpe
          obtain ⟨d', r', hph, hS⟩ :=
            hf.task ⟨e0, .iter d (i :: r)⟩ (by rw [ht]; exact mid_mem ts1 ts2) hpe
          obtain ⟨rfl, rfl⟩ : d' = d ∧ r' = i :: r := by
            cases hph
            exact ⟨rfl, rfl⟩
          rw [← hS]
          simp
  | finishTask ts1 ts2 e0 d ht =>
      refine ⟨?_, hf.nbuf, hf.nqueue, hf.lt, hf.deliv⟩
      exact fun t hm hseq => hf.task t (by rw [ht]; exact mem_unmid hm) hseq
  | panicTask ts1 ts2 e0 d i r ht =>
      refine ⟨?_, hf.nbuf, hf.nqueue, hf.lt, hf.deliv⟩
      exact fun t hm hseq => hf.task t (by rw [ht]; exact mem_unmid hm) hseq
  | cancelTinit ts1 ts2 e0 ht =>
      refine ⟨?_, hf.nbuf, hf.nqueue, hf.lt, hf.deliv⟩
      exact fun t hm hseq => hf.task t (by rw [ht]; exact mem_unmid hm) hseq
  | cancelIter ts1 ts2 e0 d i r ht =>
      refine ⟨?_, hf.nbuf, hf.nqueue, hf.lt, hf.deliv⟩
      exact fun t hm hseq => hf.task t (by rw [ht]; exact mem_unmid hm) hseq

/-- A frozen snapshot stays frozen along any execution. -/
theorem rf_frozen {e : Nat} {S : List Nat} {a b : EventBus}
    (hf : Frozen e S a) (h : RF a b) : Frozen e S b := by
  induction h with
  | refl => exact hf
  | tail y z _ hyz ih => exact frozen_step ih hyz

/-- On an open channel, `publish` succeeds and performs its updates. -/
theorem publish_open {s : EventBus} (h : s.closed = false) :
    s.publish = (Except.ok (),
      { s with
        queue := s.queue ++ [s.pubCount]
        pubCount := s.pubCount + 1
        mPending := s.mPending + 1
        mPublished := s.mPublished + 1 }) := by
  rw [EventBus.publish, h]

/-- On a closed channel, `publish` fails and leaves the state unchanged. -/
theorem publish_closed {s : EventBus} (h : s.closed = true) :
    s.publish = (Except.error (), s) := by
  rw [EventBus.publish, h]

/-- Publishing never closes the channel. -/
theorem pubIter_open (k : Nat) : ∀ n, (pubIter k n).closed = false := by
  intro n
  induction n with
  | zero => rfl
  | succ n ih =>
      show (((pubIter k n).publish).2).closed = false
      rw [publish_open ih]
      exact ih

/-- Each successful publish grows the queue by one element. -/
theorem pubIter_queue_len (k : Nat) : ∀ n, (pubIter k n).queue.length = n := by
  intro n
  induction n with
  | zero => rfl
  | succ n ih =>
      show (((pubIter k n).publish).2).queue.length = n + 1
      rw [publish_open (pubIter_open k n)]
      simp [ih]

/-- The publish-only executions are reachable. -/
theorem rf_pubIter (k : Nat) : ∀ n, RF (EventBus.new k) (pubIter k n) := by
  intro n
  induction n with
  | zero => exact RF.refl _
  | succ n ih =>
      refine RF.tail _ _ _ ih ?_
      have hstep := Step.publishOk (pubIter k n) (pubIter_open k n)
      show Step (pubIter k n) (((pubIter k n).publish).2)
      rw [publish_open (pubIter_open k n)]
      exact hstep

/-- The spawn log always consists of the first publish sequence numbers
in order: tasks are launched in exactly publish (FIFO) order. -/
theorem launched_range {k : Nat} {s : EventBus} (hInv : Inv k s) :
    s.launched = List.range s.launched.length := by
  have htake := List.take_left s.launched (s.loop.buf ++ s.queue)
  rw [hInv.fifo, List.take_range] at htake
  have hle : s.launched.length ≤ s.pubCount := by
    have hlen := congrArg List.length hInv.fifo
    simp only [List.length_append, List.length_range] at hlen
    omega
  rw [Nat.min_eq_left hle] at htake
  exact htake.symm

theorem step_demoA1 : Step (EventBus.new 1) demoA1 := Step.publishOk _ rfl

theorem step_demoA2 : Step demoA1 demoA2 := Step.dequeue _ 0 [] rfl rfl

theorem step_demoA3 : Step demoA2 demoA3 := Step.acquire _ 0 rfl (by decide)

theorem step_demoA4 : Step demoA3 demoA4 := Step.spawn _ 0 rfl

theorem step_demoA5 : Step demoA4 demoA5 := Step.poll _ [] [] 0 rfl

theorem step_demoA6 : Step demoA5 demoA6 := Step.finishTask _ [] [] 0 [] rfl

theorem step_demoB5 : Step demoA4 demoB5 := Step.subscriberAdd _ 9

theorem step_demoB6 : Step demoB5 demoB6 := Step.poll _ [] [] 0 rfl

theorem step_demoB7 : Step demoB6 demoB7 := Step.invoke _ [] [] 0 [] 0 [] rfl

theorem rf_demoA4 : RF (EventBus.new 1) demoA4 :=
  RF.tail _ _ _ (RF.tail _ _ _ (RF.tail _ _ _ (RF.tail _ _ _ (RF.refl _)
    step_demoA1) step_demoA2) step_demoA3) step_demoA4

theorem rf_demoA6 : RF (EventBus.new 1) demoA6 :=
  RF.tail _ _ _ (RF.tail _ _ _ rf_demoA4 step_demoA5) step_demoA6

theorem rf_demoA4_B7 : RF demoA4 demoB7 :=
  RF.tail _ _ _ (RF.tail _ _ _ (RF.tail _ _ _ (RF.refl _)
    step_demoB5) step_demoB6) step_demoB7

theorem rf_demoB6 : RF (EventBus.new 1) demoB6 :=
  RF.tail _ _ _ (RF.tail _ _ _ rf_demoA4 step_demoB5) step_demoB6

theorem rf_demoB7 : RF (EventBus.new 1) demoB7 :=
  RF.tail _ _ _ rf_demoB6 step_demoB7

theorem step_demoC1 : Step (EventBus.new 2) demoC1 := Step.publishOk _ rfl

theorem step_demoC2 : Step demoC1 demoC2 := Step.publishOk _ rfl

theorem step_demoC3 : Step demoC2 demoC3 := Step.dequeue _ 0 [1] rfl rfl

theorem step_demoC4 : Step demoC3 demoC4 := Step.acquire _ 0 rfl (by decide)

theorem step_demoC5 : Step demoC4 demoC5 := Step.spawn _ 0 rfl

theorem step_demoC6 : Step demoC5 demoC6 := Step.dequeue _ 1 [] rfl rfl

theorem step_demoC7 : Step demoC6 demoC7 := Step.acquire _ 1 rfl (by decide)

theorem step_demoC8 : Step demoC7 demoC8 := Step.spawn _ 1 rfl

theorem rf_demoC8 : RF (EventBus.new 2) demoC8 :=
  RF.tail _ _ _ (RF.tail _ _ _ (RF.tail _ _ _ (RF.tail _ _ _ (RF.tail _ _ _
    (RF.tail _ _ _ (RF.tail _ _ _ (RF.tail _ _ _ (RF.refl _)
      step_demoC1) step_demoC2) step_demoC3) step_demoC4) step_demoC5)
        step_demoC6) step_demoC7) step_demoC8

/-- C1: on a bus constructed with `concurrency_limit = k`, in every
reachable state at most `k` dispatch tasks hold an unreleased permit
(every live task holds exactly one), while the FIFO queue's depth is
unbounded: for every `n` some reachable state has a queue of length `n`. -/
theorem concurrency_bound_no_queue_bound (k : Nat) :
    (∀ s : EventBus, Reach k s → s.tasks.length ≤ k) ∧
    (∀ n : Nat, ∃ s : EventBus, Reach k s ∧ s.queue.length = n) := by
  constructor
  · intro s hs
    have h := (reach_inv hs).conserve
    omega
  · intro n
    exact ⟨pubIter k n, rf_pubIter k n, pubIter_queue_len k n⟩

/-- Witness for C1 at `k = 2`. -/
theorem concurrency_bound_no_queue_bound_witness :
    (EventBus.new 2).tasks.length ≤ 2 ∧
    ∃ s : EventBus, Reach 2 s ∧ s.queue.length = 3 :=
  ⟨(concurrency_bound_no_queue_bound 2).1 (EventBus.new 2) (RF.refl _),
   (concurrency_bound_no_queue_bound 2).2 3⟩

/-- C2: every step conserves the permit total (available permits plus one
permit per live task plus the loop's held permit), and any step on which
a dispatch task exits — normal completion, handler panic, or cancellation
are the only such rules — removes exactly one task and returns exactly
one permit: never zero releases and never two. -/
theorem permit_released_exactly_once {s s' : EventBus} (hs : Step s s') :
    (s'.permits + s'.tasks.length + s'.loop.heldN
        = s.permits + s.tasks.length + s.loop.heldN) ∧
    (s'.tasks.length < s.tasks.length →
        s.tasks.length = s'.tasks.length + 1 ∧ s'.permits = s.permits + 1) := by
  cases hs with
  | publishOk h => exact ⟨rfl, fun hlt => absurd hlt (lt_irrefl _)⟩
  | subscriberAdd listener => exact ⟨rfl, fun hlt => absurd hlt (lt_irrefl _)⟩
  | closeSend => exact ⟨rfl, fun hlt => absurd hlt (lt_irrefl _)⟩
  | dequeue e q hl hq =>
      refine ⟨?_, fun hlt => absurd hlt (lt_irrefl _)⟩
      rw [hl]
      simp [LoopPhase.heldN]
  | loopExit hl hq hc =>
      refine ⟨?_, fun hlt => absurd hlt (lt_irrefl _)⟩
      rw [hl]
      simp [LoopPhase.heldN]
  | acquire e hl hp =>
      refine ⟨?_, fun hlt => absurd hlt (lt_irrefl _)⟩
      rw [hl]
      simp only [LoopPhase.heldN]
      omega
  | spawn e hl =>
      refine ⟨?_, ?_⟩
      · rw [hl]
        simp only [LoopPhase.heldN, List.length_append, List.length_cons,
          List.length_nil]
        omega
      · intro hlt
        exfalso
        simp only [List.length_append, List.length_cons, List.length_nil] at hlt
        omega
  | poll ts1 ts2 e ht =>
      refine ⟨?_, ?_⟩
      · rw [ht]
        simp
      · intro hlt
        exfalso
        rw [ht] at hlt
        simp at hlt
  | invoke ts1 ts2 e d i r ht =>
      refine ⟨?_, ?_⟩
      · rw [ht]
        simp
      · intro hlt
        exfalso
        rw [ht] at hlt
        simp at hlt
  | finishTask ts1 ts2 e d ht =>
      refine ⟨?_, fun _ => ⟨?_, rfl⟩⟩
      · rw [ht]
        simp only [List.length_append, List.length_cons]
        omega
      · rw [ht]
        simp only [List.length_append, List.length_cons]
        omega
  | panicTask ts1 ts2 e d i r ht =>
      refine ⟨?_, fun _ => ⟨?_, rfl⟩⟩
      · rw [ht]
        simp only [List.length_append, List.length_cons]
        omega
      · rw [ht]
        simp only [List.length_append, List.length_cons]
        omega
  | cancelTinit ts1 ts2 e ht =>
      refine ⟨?_, fun _ => ⟨?_, rfl⟩⟩
      · rw [ht]
        simp only [List.length_append, List.length_cons]
        omega
      · rw [ht]
        simp only [List.length_append, List.length_cons]
        omega
  | cancelIter ts1 ts2 e d i r ht =>
      refine ⟨?_, fun _ => ⟨?_, rfl⟩⟩
      · rw [ht]
        simp only [List.length_append, List.length_cons]
        omega
      · rw [ht]
        simp only [List.length_append, List.length_cons]
        omega

/-- Witness for C2 at the normal-completion step of demo execution A. -/
theorem permit_released_exactly_once_witness :
    demoA5.tasks.length = demoA6.tasks.length + 1 ∧
    demoA6.permits = demoA5.permits + 1 :=
  (permit_released_exactly_once step_demoA6).2 (by decide)

/-- C3 counterexample: construction with `concurrency_limit = 0` is not
rejected.  `EventBus::new` performs no validation: the bus is created
with a zero-permit semaphore and remains usable — publish succeeds and
subscribe inserts into the registry. -/
theorem zero_limit_construction_accepted :
    (EventBus.new 0).permits = 0 ∧
    ((EventBus.new 0).publish).1 = Except.ok () ∧
    (((EventBus.new 0).subscribe 5).2).subscribers = [(0, 5)] :=
  ⟨rfl, rfl, rfl⟩

/-- C3 amended: construction succeeds without blocking for every
`concurrency_limit`, including 0 (no rejection happens); a bus built
with limit 0 accepts publishes but never launches any dispatch task. -/
theorem zero_limit_not_rejected_never_dispatches :
    (∀ k : Nat, (EventBus.new k).permits = k ∧
       ((EventBus.new k).publish).1 = Except.ok ()) ∧
    (∀ s : EventBus, Reach 0 s → s.launched = [] ∧ s.tasks = []) := by
  constructor
  · exact fun k => ⟨rfl, rfl⟩
  · intro s hs
    have hl : s.launched = [] := by
      have hs' : RF (EventBus.new 0) s := hs
      induction hs' with
      | refl => rfl
      | tail b c hab hbc ih =>
          have hInv := rf_inv hab
          cases hbc with
          | spawn e hl0 =>
              exfalso
              have hc := hInv.conserve
              rw [hl0] at hc
              simp only [LoopPhase.heldN] at hc
              omega
          | publishOk h => exact ih hab
          | subscriberAdd listener => exact ih hab
          | closeSend => exact ih hab
          | dequeue e q hl0 hq => exact ih hab
          | loopExit hl0 hq hc0 => exact ih hab
          | acquire e hl0 hp => exact ih hab
          | poll ts1 ts2 e ht => exact ih hab
          | invoke ts1 ts2 e d i r ht => exact ih hab
          | finishTask ts1 ts2 e d ht => exact ih hab
          | panicTask ts1 ts2 e d i r ht => exact ih hab
          | cancelTinit ts1 ts2 e ht => exact ih hab
          | cancelIter ts1 ts2 e d i r ht => exact ih hab
    refine ⟨hl, List.length_eq_zero.mp ?_⟩
    have hc := (reach_inv hs).conserve
    omega

/-- Witness for C3's amended statement at the freshly built zero bus. -/
theorem zero_limit_not_rejected_never_dispatches_witness :
    ((EventBus.new 0).publish).1 = Except.ok () ∧
    (EventBus.new 0).launched = [] :=
  ⟨(zero_limit_not_rejected_never_dispatches.1 0).2,
   (zero_limit_not_rejected_never_dispatches.2 (EventBus.new 0) (RF.refl _)).1⟩

/-- C4: `publish` fails exactly when the channel's receive side is
closed; on failure the state (hence every metric) is unchanged; on
success it enqueues the event and increments exactly the published
counter and pending gauge; it never takes a permit from the limiter. -/
theorem publish_fails_iff_closed (s : EventBus) :
    ((s.publish).1 = Except.error () ↔ s.closed = true) ∧
    (s.closed = true → (s.publish).2 = s) ∧
    (s.closed = false →
       (s.publish).1 = Except.ok () ∧
       (s.publish).2.queue = s.queue ++ [s.pubCount] ∧
       (s.publish).2.mPublished = s.mPublished + 1 ∧
       (s.publish).2.mPending = s.mPending + 1 ∧
       (s.publish).2.mHandled = s.mHandled ∧
       (s.publish).2.mHandling = s.mHandling ∧
       (s.publish).2.mHcount = s.mHcount) ∧
    (s.publish).2.permits = s.permits := by
  cases hc : s.closed with
  | false =>
      rw [publish_open hc]
      refine ⟨by simp [hc], ?_, ?_, rfl⟩
      · intro h
        exact absurd h (by simp [hc])
      · intro _
        exact ⟨rfl, rfl, rfl, rfl, rfl, rfl, rfl⟩
  | true =>
      rw [publish_closed hc]
      refine ⟨by simp [hc], fun _ => rfl, ?_, rfl⟩
      intro h
      exact absurd h (by simp [hc])

/-- Witness for C4 on an open and on a closed bus. -/
theorem publish_fails_iff_closed_witness :
    ((EventBus.new 1).publish).1 = Except.ok () ∧
    ((EventBus.new 1).publish).2.queue = [0] ∧
    (({ EventBus.new 1 with closed := true }).publish).2
      = { EventBus.new 1 with closed := true } := by
  refine ⟨((publish_fails_iff_closed (EventBus.new 1)).2.2.1 rfl).1, ?_,
    (publish_fails_iff_closed { EventBus.new 1 with closed := true }).2.1 rfl⟩
  have h := ((publish_fails_iff_closed (EventBus.new 1)).2.2.1 rfl).2.1
  simpa using h

/-- C5: the spawn log of any reachable state is exactly the first publish
sequence numbers in order, so if event `i` was published strictly before
event `j` and `j`'s dispatch task has been launched, then `i`'s task was
launched too, at a strictly earlier position of the launch order. -/
theorem dispatch_start_order_is_publish_order {k : Nat} {s : EventBus}
    (hs : Reach k s) :
    s.launched = List.range s.launched.length ∧
    ∀ i j : Nat, i < j → j ∈ s.launched →
      i ∈ s.launched ∧
      ∃ p q : Nat, p < q ∧ s.launched[p]? = some i ∧ s.launched[q]? = some j := by
  have hr := launched_range (reach_inv hs)
  refine ⟨hr, ?_⟩
  intro i j hij hj
  have hjn : j < s.launched.length := by
    rw [hr] at hj
    exact List.mem_range.mp hj
  have hin : i < s.launched.length := lt_trans hij hjn
  refine ⟨?_, i, j, hij, ?_, ?_⟩
  · rw [hr]
    exact List.mem_range.mpr hin
  · rw [hr]
    exact List.getElem?_range hin
  · rw [hr]
    exact List.getElem?_range hjn

/-- Witness for C5 on the two-event demo execution C. -/
theorem dispatch_start_order_is_publish_order_witness :
    0 ∈ demoC8.launched ∧
    ∃ p q : Nat, p < q ∧ demoC8.launched[p]? = some 0 ∧
      demoC8.launched[q]? = some 1 :=
  (dispatch_start_order_is_publish_order rf_demoC8).2 0 1 (by decide) (by decide)

/-- C6: within one dispatch task, handlers are invoked strictly
sequentially in snapshot order (the delivery log of a task's event always
equals its completed prefix of its snapshot); after the last handler the
task can take exactly the step that bumps the duration histogram,
decrements the handling gauge, increments the handled counter and
releases the permit — also when the snapshot is empty; concretely, an
event published on a bus with no subscribers still reaches handled = 1. -/
theorem handlers_sequential_and_bracket_runs :
    (∀ k : Nat, ∀ s : EventBus, Reach k s → ∀ t ∈ s.tasks,
       evtDeliv s.deliveries t.seq = t.phase.doneIds ∧
       ∀ d r : List Nat, t.phase = .iter d r →
         evtDeliv s.deliveries t.seq ++ r = d ++ r) ∧
    (∀ s : EventBus, ∀ ts1 ts2 : List Task, ∀ e : Nat, ∀ d : List Nat,
       s.tasks = ts1 ++ ⟨e, .iter d []⟩ :: ts2 →
       ∃ s' : EventBus, Step s s' ∧ s'.tasks = ts1 ++ ts2 ∧
         s'.mHcount = s.mHcount + 1 ∧ s'.mHandling = s.mHandling - 1 ∧
         s'.mHandled = s.mHandled + 1 ∧ s'.permits = s.permits + 1) ∧
    (∃ s : EventBus, Reach 1 s ∧ s.keyCounter = 0 ∧ s.deliveries = [] ∧
       s.mHandled = 1 ∧ s.mHcount = 1) := by
  refine ⟨?_, ?_, ?_⟩
  · intro k s hs t ht
    have hdd := (reach_inv hs).delivDone t ht
    refine ⟨hdd, ?_⟩
    intro d r hp
    rw [hdd, hp]
    simp [TaskPhase.doneIds]
  · intro s ts1 ts2 e d ht
    exact ⟨_, Step.finishTask s ts1 ts2 e d ht, rfl, rfl, rfl, rfl, rfl⟩
  · exact ⟨demoA6, rf_demoA6, rfl, rfl, rfl, rfl⟩

/-- Witness for C6 on demo execution B's fully delivered task. -/
theorem handlers_sequential_and_bracket_runs_witness :
    evtDeliv demoB7.deliveries 0 = [0] ∧
    ∃ s' : EventBus, Step demoB7 s' ∧ s'.tasks = [] ∧
      s'.mHcount = demoB7.mHcount + 1 ∧ s'.mHandling = demoB7.mHandling - 1 ∧
      s'.mHandled = demoB7.mHandled + 1 ∧ s'.permits = demoB7.permits + 1 := by
  constructor
  · exact (handlers_sequential_and_bracket_runs.1 1 demoB7 rf_demoB7
      ⟨0, .iter [0] []⟩ (by decide)).1
  · obtain ⟨s', hstep, hts, h1, h2, h3, h4⟩ :=
      handlers_sequential_and_bracket_runs.2.1 demoB7 [] [] 0 [0] rfl
    exact ⟨s', hstep, by simpa using hts, h1, h2, h3, h4⟩

/-- C7: the subscriber set a dispatch task iterates is fixed when the
task begins iterating: once a task for event `e` is in its iteration
phase with snapshot `d ++ r`, the id a subsequent subscribe call
allocates is not in that snapshot and that subscriber's handler is never
invoked for `e` in any continuation.  Moreover the snapshot is not taken
at publish or dequeue time: there is an execution in which a subscriber
registered after its event was published, dequeued and spawned still
receives that event. -/
theorem snapshot_taken_at_iteration_not_before (k : Nat) (s : EventBus)
    (hs : Reach k s) (t : Task) (ht : t ∈ s.tasks) (d r : List Nat)
    (hp : t.phase = .iter d r) :
    s.keyCounter ∉ d ++ r ∧
    (∀ listener : Nat, ∀ s2 : EventBus,
       RF ((s.subscribe listener).2) s2 →
         (t.seq, s.keyCounter) ∉ s2.deliveries) ∧
    (∃ s1 s2 : EventBus, RF (EventBus.new 1) s1 ∧ s1.pubCount = 1 ∧
       s1.launched = [0] ∧ s1.keyCounter = 0 ∧ RF s1 s2 ∧
       (0, 0) ∈ s2.deliveries) := by
  have hInv := reach_inv hs
  have hnotin : s.keyCounter ∉ d ++ r := by
    intro hm
    have hlt := hInv.snapLt t ht s.keyCounter (by rw [hp]; exact hm)
    omega
  refine ⟨hnotin, ?_, ?_⟩
  · intro listener s2 hrf hmem
    have hfr : Frozen t.seq (d ++ r) s := by
      refine ⟨?_, ?_, ?_, ?_, ?_⟩
      · intro u hu hseq
        have hut : u = t := List.inj_on_of_nodup_map hInv.seqNodup hu ht hseq
        rw [hut, hp]
        exact ⟨d, r, rfl, rfl⟩
      · intro hm
        exact disjoint_of_eq_range hInv.fifo t.seq (hInv.seqLaunched t ht)
          (List.mem_append_left _ hm)
      · intro hm
        exact disjoint_of_eq_range hInv.fifo t.seq (hInv.seqLaunched t ht)
          (List.mem_append_right _ hm)
      · exact lt_of_mem_left hInv.fifo (hInv.seqLaunched t ht)
      · intro p hpd hpe
        have h2 := mem_evtDeliv hpd hpe
        rw [hInv.delivDone t ht, hp] at h2
        exact List.mem_append_left _ h2
    have hfr2 : Frozen t.seq (d ++ r) ((s.subscribe listener).2) :=
      ⟨hfr.task, hfr.nbuf, hfr.nqueue, hfr.lt, hfr.deliv⟩
    have hfr3 := rf_frozen hfr2 hrf
    exact hnotin (hfr3.deliv (t.seq, s.keyCounter) hmem rfl)
  · exact ⟨demoA4, demoB7, rf_demoA4, rfl, rfl, rfl, rf_demoA4_B7, by decide⟩

/-- Witness for C7 on demo execution B just after the snapshot. -/
theorem snapshot_taken_at_iteration_not_before_witness :
    demoB6.keyCounter ∉ ([] : List Nat) ++ [0] ∧
    ((0 : Nat), demoB6.keyCounter) ∉ (((demoB6.subscribe 3)).2).deliveries := by
  have h := snapshot_taken_at_iteration_not_before 1 demoB6 rf_demoB6
    ⟨0, .iter [] [0]⟩ (by decide) [] [0] rfl
  exact ⟨h.1, h.2.1 3 _ (RF.refl _)⟩

/-- C8 counterexample: two successive subscribe calls insert distinct
registrations (0 and 1) into the registry, yet both calls return the
same value — `subscribe` returns unit, not the allocated id, so the
registration id is not handed back to the caller. -/
theorem subscribe_does_not_return_id :
    (((EventBus.new 1).subscribe 5).2).subscribers = [(0, 5)] ∧
    (((((EventBus.new 1).subscribe 5).2).subscribe 7).2).subscribers
      = [(0, 5), (1, 7)] ∧
    ((EventBus.new 1).subscribe 5).1
      = ((((EventBus.new 1).subscribe 5).2).subscribe 7).1 :=
  ⟨rfl, rfl, rfl⟩

/-- C8 amended: `subscribe(handler)` allocates the next id and inserts
the pair (id, handler) into the registry, but returns nothing (unit) —
the id is not exposed to the caller. -/
theorem subscribe_allocates_and_inserts (s : EventBus) (listener : Nat) :
    (s.subscribe listener).2.subscribers
      = s.subscribers ++ [(s.keyCounter, listener)] ∧
    (s.subscribe listener).2.keyCounter = s.keyCounter + 1 ∧
    (s.subscribe listener).1 = () :=
  ⟨rfl, rfl, rfl⟩

/-- C9: in every reachable state the registered ids are strictly
increasing (hence pairwise distinct and never reused), and the id a
further subscribe call would allocate is fresh: it does not collide with
any registered id, so two registrations never share an id. -/
theorem subscriber_ids_never_shared {k : Nat} {s : EventBus}
    (hs : Reach k s) :
    (s.subscribers.map Prod.fst).Pairwise (· < ·) ∧
    (s.subscribers.map Prod.fst).Nodup ∧
    ∀ listener : Nat,
      s.keyCounter ∉ s.subscribers.map Prod.fst ∧
      (((s.subscribe listener).2).subscribers.map Prod.fst).Nodup := by
  have hreg := (reach_inv hs).reg
  refine ⟨?_, ?_, ?_⟩
  · rw [hreg]
    exact List.pairwise_lt_range _
  · rw [hreg]
    exact List.nodup_range _
  · intro listener
    constructor
    · rw [hreg]
      simp [List.mem_range]
    · show ((s.subscribers ++ [(s.keyCounter, listener)]).map Prod.fst).Nodup
      rw [List.map_append, hreg]
      have hone : List.map Prod.fst [(s.keyCounter, listener)]
          = [s.keyCounter] := rfl
      rw [hone, ← List.range_succ]
      exact List.nodup_range _

/-- Witness for C9 on the reachable state with one registration. -/
theorem subscriber_ids_never_shared_witness :
    (demoB7.subscribers.map Prod.fst).Nodup ∧
    demoB7.keyCounter ∉ demoB7.subscribers.map Prod.fst := by
  have h := subscriber_ids_never_shared rf_demoB7
  exact ⟨h.2.1, (h.2.2 0).1⟩

/-- C10: the bitwise tests on the numeric encoding decide tier
membership: `contains_memory` holds exactly for MEMORY,
MEMORY_LOCALFILE, MEMORY_HDFS and MEMORY_LOCALFILE_HDFS;
`contains_localfile` exactly for LOCALFILE, MEMORY_LOCALFILE and
MEMORY_LOCALFILE_HDFS; `contains_hdfs` exactly for HDFS, MEMORY_HDFS
and MEMORY_LOCALFILE_HDFS. -/
theorem storage_type_tier_membership (s : StorageType) :
    (StorageType.contains_memory s = true ↔
       (s = .MEMORY ∨ s = .MEMORY_LOCALFILE ∨ s = .MEMORY_HDFS ∨
         s = .MEMORY_LOCALFILE_HDFS)) ∧
    (StorageType.contains_localfile s = true ↔
       (s = .LOCALFILE ∨ s = .MEMORY_LOCALFILE ∨
         s = .MEMORY_LOCALFILE_HDFS)) ∧
    (StorageType.contains_hdfs s = true ↔
       (s = .HDFS ∨ s = .MEMORY_HDFS ∨ s = .MEMORY_LOCALFILE_HDFS)) := by
  cases s <;> exact ⟨by decide, by decide, by decide⟩

end Rifflex
